import Mathlib

/-!
Shallow embedding of the aircamera haze-estimation pipeline
(src/preprocessing.py, src/haze_estimation.py, src/feature_extraction.py)
and proofs about its specification.

Modelling conventions:
- float64 arithmetic is modelled by exact rationals, uint8 samples by
  natural numbers in 0..255;
- a BGR image is a PixelGrid: height, width and a pixel function returning
  a channel triple;
- cv2.erode with a p x p rectangular structuring element (anchor at its
  centre cell, BORDER_CONSTANT border, whose border value never wins a
  minimum) is the sliding-window minimum over the in-bounds part of the
  window: the window shrinks at the borders;
- numpy argsort is modelled as a stable insertion sort of the index list
  (numpy's quicksort is unstable, so only tie-breaking can differ);
- Python round(x, d) is round-half-to-even at d decimal digits;
- Python int() is integer division of the numerator by the denominator,
  truncation toward zero.
-/

namespace AirCamera

/-- A BGR image as produced by cv2.imread: height, width, and for every
coordinate pair a triple of uint8 channel samples. -/
structure PixelGrid where
  h : ℕ
  w : ℕ
  pix : ℕ → ℕ → ℕ × ℕ × ℕ

/-- A single-channel float64 image. -/
structure ScalarField where
  h : ℕ
  w : ℕ
  val : ℕ → ℕ → ℚ

/-- PATCH_SIZE constant of src/haze_estimation.py. -/
def PATCH_SIZE : ℕ := 15

/-- OMEGA constant of src/haze_estimation.py. -/
def OMEGA : ℚ := 95 / 100

/-- TOP_PERCENT constant of src/haze_estimation.py line 60.  The assigned
value is 0.1, although the adjacent comment says "Top 0.1% brightest
pixels" and the docstring of estimate_atmospheric_light says
"default 0.001". -/
def TOP_PERCENT : ℚ := 1 / 10

/-- np.clip(x, lo, hi): maximum with lo, then minimum with hi. -/
def clampQ (x lo hi : ℚ) : ℚ := min (max x lo) hi

/-- Per-pixel minimum across the three colour channels of the
255-normalised image: steps
img = image_bgr.astype(np.float64) / 255.0 and
channel_min = np.min(img, axis=2) of compute_dark_channel. -/
def channelMin (g : PixelGrid) : ScalarField :=
  ⟨g.h, g.w, fun i j =>
    (min (g.pix i j).1 (min (g.pix i j).2.1 (g.pix i j).2.2) : ℚ) / 255⟩

/-- In-bounds coordinates of the p x p window anchored at its centre cell
(p / 2, p / 2) around (i, j), as cv2.erode visits them; out-of-bounds
cells are dropped, because the BORDER_CONSTANT border value of an erosion
never wins the minimum. -/
def windowCoords (p h w i j : ℕ) : List (ℕ × ℕ) :=
  (((List.range p).flatMap fun a => (List.range p).map fun b => (a, b)).filterMap
    fun ab =>
      let i2 : ℤ := (i : ℤ) + ab.1 - (p / 2 : ℕ)
      let j2 : ℤ := (j : ℤ) + ab.2 - (p / 2 : ℕ)
      if 0 ≤ i2 ∧ i2 < (h : ℤ) ∧ 0 ≤ j2 ∧ j2 < (w : ℤ) then
        some (i2.toNat, j2.toNat)
      else none)

/-- Value of the erosion (sliding-window minimum) of f at (i, j).  When
p ≥ 1 and (i, j) is in bounds the window contains (i, j) itself, so
seeding the fold with the centre value computes exactly the window
minimum. -/
def erodeAt (f : ScalarField) (p i j : ℕ) : ℚ :=
  (windowCoords p f.h f.w i j).foldl (fun m c => min m (f.val c.1 c.2))
    (f.val i j)

/-- cv2.erode of a scalar field with a p x p rectangular kernel. -/
def erode (f : ScalarField) (p : ℕ) : ScalarField :=
  ⟨f.h, f.w, fun i j => erodeAt f p i j⟩

/-- compute_dark_channel of src/haze_estimation.py: normalise the uint8
image to [0, 1], take the per-pixel channel minimum, then erode with a
p x p rectangular kernel. -/
def compute_dark_channel (g : PixelGrid) (p : ℕ) : ScalarField :=
  erode (channelMin g) p

/-- The only way a call to compute_dark_channel can fail:
cv2.getStructuringElement asserts that the kernel dimensions are
positive.  The Python function performs no patch-size validation of its
own, and no InvalidPatchSizeError class exists anywhere in the
repository. -/
inductive CvError where
  | badStructuringElement
  deriving DecidableEq

/-- Run compute_dark_channel as the Python call behaves: the OpenCV
assertion rejects p < 1; every p ≥ 1, odd or even, is accepted. -/
def compute_dark_channel_run (g : PixelGrid) (p : ℕ) :
    Except CvError ScalarField :=
  if p < 1 then Except.error CvError.badStructuringElement
  else Except.ok (compute_dark_channel g p)

/-- A concrete 2 x 2 test image used to instantiate witnesses. -/
def testGrid : PixelGrid :=
  ⟨2, 2, fun i j =>
    if i = 0 ∧ j = 0 then (10, 20, 30)
    else if i = 0 ∧ j = 1 then (200, 100, 50)
    else if i = 1 ∧ j = 0 then (255, 255, 255)
    else (0, 5, 9)⟩

theorem foldl_min_le_init (v : ℕ × ℕ → ℚ) :
    ∀ (l : List (ℕ × ℕ)) (init : ℚ),
      l.foldl (fun m c => min m (v c)) init ≤ init := by
  intro l
  induction l with
  | nil => intro init; exact le_refl _
  | cons c cs ih =>
      intro init
      calc (c :: cs).foldl (fun m c => min m (v c)) init
          = cs.foldl (fun m c => min m (v c)) (min init (v c)) := rfl
        _ ≤ min init (v c) := ih _
        _ ≤ init := min_le_left _ _

/-- The sliding-window minimum never exceeds the value at the centre of
the window. -/
theorem erodeAt_le_center (f : ScalarField) (p i j : ℕ) :
    erodeAt f p i j ≤ f.val i j :=
  foldl_min_le_init _ _ _

/-- C10: for every 3-channel image and valid patch size, the dark channel
value at each pixel is at most the per-pixel minimum across the three
colour channels at that same pixel (both after normalisation to [0, 1]):
the local-window minimum never exceeds the channel-min field it is
computed from. -/
theorem C10_dark_channel_le_channel_min (g : PixelGrid) (p : ℕ)
    (_hp : Odd p) (i j : ℕ) (_hi : i < g.h) (_hj : j < g.w) :
    (compute_dark_channel g p).val i j ≤ (channelMin g).val i j :=
  erodeAt_le_center _ _ _ _

theorem C10_dark_channel_le_channel_min_witness :
    Odd 3 ∧ 0 < testGrid.h ∧ 0 < testGrid.w ∧
      (compute_dark_channel testGrid 3).val 0 0 ≤ (channelMin testGrid).val 0 0 :=
  ⟨by decide, by decide, by decide,
    C10_dark_channel_le_channel_min testGrid 3 (by decide) 0 0 (by decide)
      (by decide)⟩

/-- C7: applying the DarkChannelFilter twice with the same patch size to
the same grid yields a field pointwise at most the single-pass field.
The first pass produces a single-channel ScalarField, on which the
channel-minimum step is the identity, so the second pass is the p x p
window minimum (erosion) of the single-pass result. -/
theorem C7_dark_channel_twice_le (g : PixelGrid) (p : ℕ) (_hp : Odd p)
    (i j : ℕ) (_hi : i < g.h) (_hj : j < g.w) :
    (erode (compute_dark_channel g p) p).val i j ≤
      (compute_dark_channel g p).val i j :=
  erodeAt_le_center _ _ _ _

theorem C7_dark_channel_twice_le_witness :
    Odd 3 ∧ 0 < testGrid.h ∧ 0 < testGrid.w ∧
      (erode (compute_dark_channel testGrid 3) 3).val 0 0 ≤
        (compute_dark_channel testGrid 3).val 0 0 :=
  ⟨by decide, by decide, by decide,
    C7_dark_channel_twice_le testGrid 3 (by decide) 0 0 (by decide) (by decide)⟩

/-- C8 counterexample: at the even patch size 2 the filter does not fail
at all — compute_dark_channel runs successfully, so it cannot raise an
InvalidPatchSizeError (no such error class exists in the code). -/
theorem C8_counterexample :
    (compute_dark_channel_run testGrid 2).isOk = true := rfl

/-- C8 amended: compute_dark_channel performs no oddness validation: the
call succeeds for every patch size p ≥ 1, even sizes included, and fails
(with the OpenCV structuring-element assertion, not an
InvalidPatchSizeError) exactly when p < 1. -/
theorem C8_no_patch_validation (g : PixelGrid) (p : ℕ) :
    (compute_dark_channel_run g p).isOk = true ↔ 1 ≤ p := by
  by_cases h : p < 1
  · exact iff_of_false
      (by simp [compute_dark_channel_run, h, Except.isOk, Except.toBool])
      (by omega)
  · exact iff_of_true
      (by simp [compute_dark_channel_run, h, Except.isOk, Except.toBool])
      (by omega)

/-- A 3-channel field of float64 values: the type of the unclamped
normalised ratio grid inside compute_transmission_map. -/
structure VecField where
  h : ℕ
  w : ℕ
  val : ℕ → ℕ → ℚ × ℚ × ℚ

/-- The epsilon guard 1e-8 added to the atmospheric light before
dividing. -/
def EPS : ℚ := 1 / 100000000

/-- Steps img = image_bgr.astype(np.float64) / 255.0 and
normalised = img / (atmospheric_light + 1e-8) of
compute_transmission_map: the unclamped floating-point normalised
grid. -/
def normalisedGrid (g : PixelGrid) (A : ℚ × ℚ × ℚ) : VecField :=
  ⟨g.h, g.w, fun i j =>
    (((g.pix i j).1 : ℚ) / 255 / (A.1 + EPS),
     ((g.pix i j).2.1 : ℚ) / 255 / (A.2.1 + EPS),
     ((g.pix i j).2.2 : ℚ) / 255 / (A.2.2 + EPS))⟩

/-- numpy float64-to-uint8 conversion of a nonnegative value: truncation
toward zero, reduced modulo 256 (the wraparound the cast performs on
values above 255). -/
def toU8 (q : ℚ) : ℕ := (⌊q⌋).toNat % 256

/-- Step (normalised * 255).astype(np.uint8).clip(0, 255) of
compute_transmission_map: the 8-bit quantisation of the normalised grid.
The clip acts on the already-converted uint8 array, whose values all lie
in 0..255, so it is the identity: values of 256 and above have already
wrapped around. -/
def quantizedGrid (v : VecField) : PixelGrid :=
  ⟨v.h, v.w, fun i j =>
    (toU8 ((v.val i j).1 * 255),
     toU8 ((v.val i j).2.1 * 255),
     toU8 ((v.val i j).2.2 * 255))⟩

/-- compute_transmission_map of src/haze_estimation.py, transcribed line
by line: the image is 255-normalised, divided channel-wise by the
atmospheric light plus 1e-8, scaled back by 255 and cast to uint8 (with
a no-op clip after the cast), compute_dark_channel is re-run on that
uint8 grid, and 1 - omega times its output is clamped to
[0.01, 1.0]. -/
def compute_transmission_map (g : PixelGrid) (A : ℚ × ℚ × ℚ) (p : ℕ)
    (omega : ℚ) : ScalarField :=
  let normalised : VecField := normalisedGrid g A
  let dc_norm : ScalarField := compute_dark_channel (quantizedGrid normalised) p
  ⟨g.h, g.w, fun i j => clampQ (1 - omega * dc_norm.val i j) (1 / 100) 1⟩

/-- compute_haze_map of src/haze_estimation.py: haze = 1 - t
elementwise. -/
def compute_haze_map (t : ScalarField) : ScalarField :=
  ⟨t.h, t.w, fun i j => 1 - t.val i j⟩

/-- Channel minimum of a 3-channel float field, without any
renormalisation: the first step of the DarkChannelFilter read on a
floating-point grid. -/
def vecChannelMin (v : VecField) : ScalarField :=
  ⟨v.h, v.w, fun i j =>
    min (v.val i j).1 (min (v.val i j).2.1 (v.val i j).2.2)⟩

/-- Modelled from the spec: the transmission formula of §4.4 as claim C1
reads it — the DarkChannelFilter applied to the *unclamped
floating-point* normalised grid (channel minimum of the normalised
ratios, then window minimum), the result 1 - omega times that dark
channel, clamped to [0.01, 1.0].  Declared only to compare the claimed
formula with the code, which instead quantises the normalised grid to
uint8 first. -/
def spec_transmission_map (g : PixelGrid) (A : ℚ × ℚ × ℚ) (p : ℕ)
    (omega : ℚ) : ScalarField :=
  ⟨g.h, g.w, fun i j =>
    clampQ (1 - omega * (erode (vecChannelMin (normalisedGrid g A)) p).val i j)
      (1 / 100) 1⟩

theorem foldl_min_const (v : ℕ × ℕ → ℚ) :
    ∀ (l : List (ℕ × ℕ)) (init : ℚ), (∀ c ∈ l, v c = init) →
      l.foldl (fun m c => min m (v c)) init = init := by
  intro l
  induction l with
  | nil => intro init _; rfl
  | cons c cs ih =>
      intro init h
      have hc : v c = init := h c (List.mem_cons_self c cs)
      have hcs : ∀ d ∈ cs, v d = init := fun d hd => h d (List.mem_cons_of_mem c hd)
      calc (c :: cs).foldl (fun m c => min m (v c)) init
          = cs.foldl (fun m c => min m (v c)) (min init (v c)) := rfl
        _ = cs.foldl (fun m c => min m (v c)) init := by rw [hc, min_self]
        _ = init := ih init hcs

/-- Every coordinate produced by windowCoords is in bounds. -/
theorem windowCoords_mem (p h w i j : ℕ) :
    ∀ c ∈ windowCoords p h w i j, c.1 < h ∧ c.2 < w := by
  intro c hc
  simp only [windowCoords, List.mem_filterMap] at hc
  obtain ⟨ab, _, hab⟩ := hc
  by_cases hcond :
      0 ≤ (i : ℤ) + ab.1 - (p / 2 : ℕ) ∧ (i : ℤ) + ab.1 - (p / 2 : ℕ) < (h : ℤ) ∧
        0 ≤ (j : ℤ) + ab.2 - (p / 2 : ℕ) ∧ (j : ℤ) + ab.2 - (p / 2 : ℕ) < (w : ℤ)
  · rw [if_pos hcond] at hab
    obtain ⟨h1, h2, h3, h4⟩ := hcond
    cases hab
    constructor
    · omega
    · omega
  · rw [if_neg hcond] at hab
    cases hab

/-- On a 1 x 1 field the erosion is the value of the single pixel,
whatever the patch size. -/
theorem erodeAt_of_one_one (f : ScalarField) (h1 : f.h = 1) (h2 : f.w = 1)
    (p : ℕ) : erodeAt f p 0 0 = f.val 0 0 := by
  unfold erodeAt
  apply foldl_min_const
  intro c hc
  have hb := windowCoords_mem p f.h f.w 0 0 c hc
  rw [h1, h2] at hb
  have hx : c.1 = 0 := by omega
  have hy : c.2 = 0 := by omega
  have : c = (0, 0) := Prod.ext hx hy
  rw [this]

/-- A concrete 1 x 1 pure-white image. -/
def whiteGrid : PixelGrid := ⟨1, 1, fun _ _ => (255, 255, 255)⟩

/-- A concrete atmospheric light with every channel 0.5. -/
def halfLight : ℚ × ℚ × ℚ := (1 / 2, 1 / 2, 1 / 2)

/-- C1 counterexample: on the 1 x 1 white image with atmospheric light
(0.5, 0.5, 0.5), the normalised ratio is 1/0.50000001 ≈ 2.0, so the
spec formula floors the transmission at 0.01, while the code multiplies
by 255 (≈ 509.99999), truncates to 509 and wraps to the uint8 value
253, giving transmission 1 - 0.95 * 253/255 = 293/5100 ≈ 0.0575.  The
two fields differ, refuting the claim that the code computes the
transmission from the unclamped floating-point normalised grid. -/
theorem C1_counterexample :
    (compute_transmission_map whiteGrid halfLight 15 OMEGA).val 0 0 = 293 / 5100 ∧
    (spec_transmission_map whiteGrid halfLight 15 OMEGA).val 0 0 = 1 / 100 ∧
    (compute_transmission_map whiteGrid halfLight 15 OMEGA).val 0 0 ≠
      (spec_transmission_map whiteGrid halfLight 15 OMEGA).val 0 0 := by
  have hnv : (normalisedGrid whiteGrid halfLight).val 0 0
      = (100000000 / 50000001, 100000000 / 50000001, 100000000 / 50000001) := by
    simp only [normalisedGrid, whiteGrid, halfLight, EPS]
    norm_num
  have hfl : ⌊(100000000 / 50000001 : ℚ) * 255⌋ = (509 : ℤ) := by
    rw [Int.floor_eq_iff]
    norm_num
  have hq : (quantizedGrid (normalisedGrid whiteGrid halfLight)).pix 0 0
      = (253, 253, 253) := by
    simp only [quantizedGrid, hnv, toU8, hfl]
    norm_num
    decide
  have hcm : (channelMin (quantizedGrid (normalisedGrid whiteGrid halfLight))).val 0 0
      = 253 / 255 := by
    simp only [channelMin, hq]
    norm_num
  have hdc : (compute_dark_channel (quantizedGrid (normalisedGrid whiteGrid halfLight)) 15).val 0 0
      = 253 / 255 := by
    have he : (compute_dark_channel (quantizedGrid (normalisedGrid whiteGrid halfLight)) 15).val 0 0
        = erodeAt (channelMin (quantizedGrid (normalisedGrid whiteGrid halfLight))) 15 0 0 := rfl
    rw [he, erodeAt_of_one_one _ rfl rfl, hcm]
  have hsv : (vecChannelMin (normalisedGrid whiteGrid halfLight)).val 0 0
      = 100000000 / 50000001 := by
    simp only [vecChannelMin, hnv]
    norm_num
  have hsd : (erode (vecChannelMin (normalisedGrid whiteGrid halfLight)) 15).val 0 0
      = 100000000 / 50000001 := by
    have he : (erode (vecChannelMin (normalisedGrid whiteGrid halfLight)) 15).val 0 0
        = erodeAt (vecChannelMin (normalisedGrid whiteGrid halfLight)) 15 0 0 := rfl
    rw [he, erodeAt_of_one_one _ rfl rfl, hsv]
  have hcode : (compute_transmission_map whiteGrid halfLight 15 OMEGA).val 0 0
      = 293 / 5100 := by
    show clampQ
        (1 - OMEGA *
          (compute_dark_channel (quantizedGrid (normalisedGrid whiteGrid halfLight)) 15).val 0 0)
        (1 / 100) 1 = 293 / 5100
    rw [hdc]
    unfold clampQ OMEGA
    rw [max_eq_left (by norm_num), min_eq_left (by norm_num)]
    norm_num
  have hspec : (spec_transmission_map whiteGrid halfLight 15 OMEGA).val 0 0
      = 1 / 100 := by
    show clampQ
        (1 - OMEGA * (erode (vecChannelMin (normalisedGrid whiteGrid halfLight)) 15).val 0 0)
        (1 / 100) 1 = 1 / 100
    rw [hsd]
    unfold clampQ OMEGA
    rw [max_eq_right (by norm_num), min_eq_left (by norm_num)]
  exact ⟨hcode, hspec, by rw [hcode, hspec]; norm_num⟩

/-- C1 amended: compute_transmission_map returns the field 1 - omega * D
clamped to [0.01, 1.0], where D is the DarkChannelFilter applied not to
the unclamped floating-point normalised grid but to its 8-bit
quantisation: each normalised channel is multiplied by 255 and cast to
uint8 (truncation, wrapping modulo 256 — the cast precedes the clip,
which is therefore a no-op), and the filter renormalises that uint8 grid
by 255. -/
theorem C1_transmission_from_quantized_grid (g : PixelGrid)
    (A : ℚ × ℚ × ℚ) (p : ℕ) (omega : ℚ) (i j : ℕ) :
    (compute_transmission_map g A p omega).val i j =
      clampQ
        (1 - omega *
          (compute_dark_channel (quantizedGrid (normalisedGrid g A)) p).val i j)
        (1 / 100) 1 := rfl

/-- The clamp of the transmission map keeps every value in
[1/100, 1]. -/
theorem transmission_bounds (g : PixelGrid) (A : ℚ × ℚ × ℚ) (p : ℕ)
    (omega : ℚ) (i j : ℕ) :
    1 / 100 ≤ (compute_transmission_map g A p omega).val i j ∧
      (compute_transmission_map g A p omega).val i j ≤ 1 := by
  refine ⟨le_min (le_max_right _ _) (by norm_num), min_le_right _ _⟩

/-- C2: the haze map returned by compute_haze_map on the pipeline's
transmission map equals 1 - transmission at every pixel, and every haze
value lies in [0, 1] (indeed in [0, 0.99], since the transmission is
clamped to [0.01, 1]). -/
theorem C2_haze_map_inversion_and_range (g : PixelGrid) (A : ℚ × ℚ × ℚ)
    (p : ℕ) (omega : ℚ) (i j : ℕ) (_hi : i < g.h) (_hj : j < g.w) :
    (compute_haze_map (compute_transmission_map g A p omega)).val i j =
        1 - (compute_transmission_map g A p omega).val i j ∧
      0 ≤ (compute_haze_map (compute_transmission_map g A p omega)).val i j ∧
      (compute_haze_map (compute_transmission_map g A p omega)).val i j ≤ 1 := by
  obtain ⟨hlo, hhi⟩ := transmission_bounds g A p omega i j
  refine ⟨rfl, ?_, ?_⟩
  · show 0 ≤ 1 - (compute_transmission_map g A p omega).val i j
    linarith
  · show 1 - (compute_transmission_map g A p omega).val i j ≤ 1
    linarith

theorem C2_haze_map_inversion_and_range_witness :
    0 < whiteGrid.h ∧ 0 < whiteGrid.w ∧
      ((compute_haze_map (compute_transmission_map whiteGrid halfLight 15 OMEGA)).val 0 0 =
          1 - (compute_transmission_map whiteGrid halfLight 15 OMEGA).val 0 0 ∧
        0 ≤ (compute_haze_map (compute_transmission_map whiteGrid halfLight 15 OMEGA)).val 0 0 ∧
        (compute_haze_map (compute_transmission_map whiteGrid halfLight 15 OMEGA)).val 0 0 ≤ 1) :=
  ⟨by decide, by decide,
    C2_haze_map_inversion_and_range whiteGrid halfLight 15 OMEGA 0 0
      (by decide) (by decide)⟩

/-- Python int() of a rational: truncation toward zero — the floor for
nonnegative arguments, the ceiling for negative ones. -/
def pyTrunc (q : ℚ) : ℤ := if 0 ≤ q then ⌊q⌋ else ⌈q⌉

/-- Step num_top = max(int(num_pixels * top_percent), 1) of
estimate_atmospheric_light: the number of candidate pixels. -/
def numTop (numPixels : ℕ) (top_percent : ℚ) : ℕ :=
  max (pyTrunc ((numPixels : ℚ) * top_percent)).toNat 1

/-- C4: the configured candidate fraction.  The claim — like the code's
own comment ("Top 0.1% brightest pixels") and the docstring of
estimate_atmospheric_light ("default 0.001") — says 0.001, but the
constant assigned in the code is 0.1.  On a 100 x 100 image (10000
pixels) the code therefore selects max(int(10000 * 0.1), 1) = 1000
candidate pixels, where the documented fraction 0.001 would select
10. -/
theorem C4_top_percent_is_ten_percent :
    TOP_PERCENT = 1 / 10 ∧ TOP_PERCENT ≠ 1 / 1000 ∧
      numTop 10000 TOP_PERCENT = 1000 ∧ numTop 10000 (1 / 1000) = 10 := by
  refine ⟨rfl, by norm_num [TOP_PERCENT], ?_, ?_⟩
  · have h : ((10000 : ℕ) : ℚ) * TOP_PERCENT = 1000 := by norm_num [TOP_PERCENT]
    simp only [numTop, pyTrunc, h]
    rw [if_pos (by norm_num)]
    norm_num
    decide
  · have h : ((10000 : ℕ) : ℚ) * (1 / 1000) = 10 := by norm_num
    simp only [numTop, pyTrunc, h]
    rw [if_pos (by norm_num)]
    norm_num
    decide

/-- Round half to even, the rounding performed by Python's builtin
round: when the fractional part is exactly one half the even neighbour
wins, otherwise the nearest integer. -/
def roundHE (q : ℚ) : ℤ :=
  if q - ⌊q⌋ = 1 / 2 then (if 2 ∣ ⌊q⌋ then ⌊q⌋ else ⌊q⌋ + 1)
  else ⌊q + 1 / 2⌋

/-- Python round(x, d): round half to even at d decimal digits. -/
def roundTo (d : ℕ) (q : ℚ) : ℚ := (roundHE (q * 10 ^ d) : ℚ) / 10 ^ d

/-- np.mean: sum divided by size. -/
def meanQ (l : List ℚ) : ℚ := l.sum / l.length

/-- np.max on a list of values (0 on the empty list, where NumPy would
raise instead; extract_haze_features never reaches this case on empty
input). -/
def maxQ : List ℚ → ℚ
  | [] => 0
  | a :: as => as.foldl max a

/-- np.min on a list of values (0 on the empty list, same caveat as
maxQ). -/
def minQ : List ℚ → ℚ
  | [] => 0
  | a :: as => as.foldl min a

/-- np.var: mean of the squared deviations from the mean. -/
def varQ (l : List ℚ) : ℚ := (l.map fun x => (x - meanQ l) ^ 2).sum / l.length

/-- The FeatureVector of src/feature_extraction.py. -/
structure Features where
  mean_haze : ℚ
  haze_variance : ℚ
  max_haze : ℚ
  contrast : ℚ
  deriving DecidableEq

/-- The feature dictionary extract_haze_features builds from a
non-empty haze map (passed as the list of its values): mean, variance,
max and max - min, rounded to 4, 6, 4 and 4 decimal digits
respectively. -/
def featuresOf (l : List ℚ) : Features :=
  { mean_haze := roundTo 4 (meanQ l)
    haze_variance := roundTo 6 (varQ l)
    max_haze := roundTo 4 (maxQ l)
    contrast := roundTo 4 (maxQ l - minQ l) }

/-- How extract_haze_features can fail.  On a zero-size array np.mean
and np.var only emit a RuntimeWarning and produce nan, but np.max then
raises "ValueError: zero-size array to reduction operation".  The
emptyFieldError constructor is modelled from the spec's words (the
EmptyFieldError class of §4.6/§7, which exists nowhere in the code) and
is declared only so the claimed and the actual failure can be
compared. -/
inductive FeatureError where
  | emptyFieldError
  | numpyValueError
  deriving DecidableEq

/-- extract_haze_features of src/feature_extraction.py: fails on a
zero-size field (through np.max's reduction error), returns the rounded
feature dictionary otherwise. -/
def extract_haze_features (l : List ℚ) : Except FeatureError Features :=
  if l.isEmpty then Except.error FeatureError.numpyValueError
  else Except.ok (featuresOf l)

theorem init_le_foldl_max :
    ∀ (as : List ℚ) (init : ℚ), init ≤ as.foldl max init := by
  intro as
  induction as with
  | nil => intro init; exact le_refl _
  | cons a as ih =>
      intro init
      calc init ≤ max init a := le_max_left _ _
        _ ≤ (a :: as).foldl max init := ih _

theorem mem_le_foldl_max :
    ∀ (as : List ℚ) (init x : ℚ), x ∈ as → x ≤ as.foldl max init := by
  intro as
  induction as with
  | nil => intro init x hx; cases hx
  | cons a as ih =>
      intro init x hx
      rcases List.mem_cons.mp hx with h | h
      · subst h
        calc x ≤ max init x := le_max_right _ _
          _ ≤ as.foldl max (max init x) := init_le_foldl_max _ _
      · exact ih _ x h

/-- Every member of a list is at most its maximum. -/
theorem le_maxQ (l : List ℚ) : ∀ x ∈ l, x ≤ maxQ l := by
  intro x hx
  cases l with
  | nil => cases hx
  | cons a as =>
      rcases List.mem_cons.mp hx with h | h
      · subst h; exact init_le_foldl_max _ _
      · exact mem_le_foldl_max _ _ _ h

/-- The mean of a non-empty list is at most its maximum. -/
theorem meanQ_le_maxQ (l : List ℚ) (h : l ≠ []) : meanQ l ≤ maxQ l := by
  have hpos : 0 < l.length := List.length_pos.mpr h
  have hlen : (0 : ℚ) < l.length := by exact_mod_cast hpos
  unfold meanQ
  rw [div_le_iff₀ hlen]
  calc l.sum ≤ l.length • maxQ l := List.sum_le_card_nsmul l (maxQ l) (le_maxQ l)
    _ = maxQ l * l.length := by rw [nsmul_eq_mul]; ring

/-- Round half to even is monotone. -/
theorem roundHE_mono {a b : ℚ} (hab : a ≤ b) : roundHE a ≤ roundHE b := by
  unfold roundHE
  have hf : ⌊a⌋ ≤ ⌊b⌋ := Int.floor_le_floor hab
  by_cases ha : a - ⌊a⌋ = 1 / 2 <;> by_cases hb : b - ⌊b⌋ = 1 / 2
  · rw [if_pos ha, if_pos hb]
    rcases eq_or_lt_of_le hf with he | hl
    · rw [he]
    · split_ifs <;> omega
  · rw [if_pos ha, if_neg hb]
    have ha2 : a + 1 / 2 = ((⌊a⌋ + 1 : ℤ) : ℚ) := by push_cast; linarith
    have h2 : ⌊a + 1 / 2⌋ = ⌊a⌋ + 1 := by rw [ha2, Int.floor_intCast]
    have h3 : ⌊a + 1 / 2⌋ ≤ ⌊b + 1 / 2⌋ := Int.floor_le_floor (by linarith)
    split_ifs <;> omega
  · rw [if_neg ha, if_pos hb]
    have hab2 : a < b := by
      rcases eq_or_lt_of_le hab with he | hl
      · exfalso; rw [he] at ha; exact ha hb
      · exact hl
    have hb2 : b = (⌊b⌋ : ℚ) + 1 / 2 := by linarith
    have h4 : ⌊a + 1 / 2⌋ < ⌊b⌋ + 1 := by
      apply Int.floor_lt.mpr
      push_cast
      linarith
    split_ifs <;> omega
  · rw [if_neg ha, if_neg hb]
    exact Int.floor_le_floor (by linarith)

/-- Rounding to d decimal digits is monotone. -/
theorem roundTo_mono (d : ℕ) {a b : ℚ} (hab : a ≤ b) :
    roundTo d a ≤ roundTo d b := by
  unfold roundTo
  have h10 : (0 : ℚ) < 10 ^ d := by positivity
  have hnum : (roundHE (a * 10 ^ d) : ℚ) ≤ (roundHE (b * 10 ^ d) : ℚ) := by
    exact_mod_cast roundHE_mono (mul_le_mul_of_nonneg_right hab (le_of_lt h10))
  gcongr

/-- C5 counterexample: on the single-pixel haze map [1/100000] the
rounded contrast is 0 while max_haze - min(hazeMap) is
0 - 1/100000 = -1/100000, so the claimed identity
contrast = max_haze - min(hazeMap) fails: rounding to four decimals
breaks it. -/
theorem C5_counterexample :
    (featuresOf [1 / 100000]).contrast = 0 ∧
    (featuresOf [1 / 100000]).max_haze - minQ [1 / 100000] = -(1 / 100000) ∧
    (featuresOf [1 / 100000]).contrast ≠
      (featuresOf [1 / 100000]).max_haze - minQ [1 / 100000] := by
  have hzero : roundTo 4 (0 : ℚ) = 0 := by
    have hfa : ⌊(0 : ℚ)⌋ = 0 := Int.floor_zero
    have hfb : ⌊(0 : ℚ) + 1 / 2⌋ = 0 := by rw [Int.floor_eq_iff]; norm_num
    unfold roundTo roundHE
    rw [show ((0 : ℚ) * 10 ^ 4) = 0 by ring, hfa, if_neg (by norm_num), hfb]
    norm_num
  have htenth : roundTo 4 ((1 : ℚ) / 100000) = 0 := by
    have harg : ((1 : ℚ) / 100000) * 10 ^ 4 = 1 / 10 := by norm_num
    have hfa : ⌊((1 : ℚ) / 10)⌋ = 0 := by rw [Int.floor_eq_iff]; norm_num
    have hfb : ⌊((1 : ℚ) / 10 + 1 / 2)⌋ = 0 := by rw [Int.floor_eq_iff]; norm_num
    unfold roundTo roundHE
    rw [harg, hfa]
    rw [if_neg (by norm_num), hfb]
    norm_num
  have hc1 : (featuresOf [1 / 100000]).contrast = 0 := by
    show roundTo 4 (maxQ [1 / 100000] - minQ [1 / 100000]) = 0
    rw [show maxQ [(1 : ℚ) / 100000] - minQ [(1 : ℚ) / 100000] = 0 by
      show (1 : ℚ) / 100000 - 1 / 100000 = 0; ring]
    exact hzero
  have hc2 : (featuresOf [1 / 100000]).max_haze - minQ [1 / 100000]
      = -(1 / 100000) := by
    show roundTo 4 (maxQ [1 / 100000]) - minQ [1 / 100000] = -(1 / 100000)
    rw [show maxQ [(1 : ℚ) / 100000] = 1 / 100000 from rfl, htenth,
      show minQ [(1 : ℚ) / 100000] = 1 / 100000 from rfl]
    ring
  exact ⟨hc1, hc2, by rw [hc1, hc2]; norm_num⟩

/-- C5 amended: for every non-empty haze map, the contrast feature is
the 4-decimal rounding of max(hazeMap) - min(hazeMap) — which can
differ from max_haze - min(hazeMap) because max_haze itself is rounded
— and max_haze ≥ mean_haze still holds, since rounding half-to-even is
monotone and the mean is at most the maximum. -/
theorem C5_contrast_is_rounded_difference (l : List ℚ) (h : l ≠ []) :
    (featuresOf l).contrast = roundTo 4 (maxQ l - minQ l) ∧
      (featuresOf l).mean_haze ≤ (featuresOf l).max_haze :=
  ⟨rfl, roundTo_mono 4 (meanQ_le_maxQ l h)⟩

theorem C5_contrast_is_rounded_difference_witness :
    ([0, 1 / 2] : List ℚ) ≠ [] ∧
      ((featuresOf [0, 1 / 2]).contrast
          = roundTo 4 (maxQ [0, 1 / 2] - minQ [0, 1 / 2]) ∧
        (featuresOf [0, 1 / 2]).mean_haze ≤ (featuresOf [0, 1 / 2]).max_haze) :=
  ⟨by simp, C5_contrast_is_rounded_difference [0, 1 / 2] (by simp)⟩

/-- C9 counterexample: on a zero-size field extract_haze_features does
fail, but with NumPy's ValueError from the max reduction, not with an
EmptyFieldError — no such error class exists in the code. -/
theorem C9_counterexample :
    extract_haze_features [] = Except.error FeatureError.numpyValueError ∧
      extract_haze_features [] ≠ Except.error FeatureError.emptyFieldError := by
  constructor
  · rfl
  · intro h
    rw [show extract_haze_features []
        = Except.error FeatureError.numpyValueError from rfl] at h
    cases h

/-- C9 amended: extract_haze_features succeeds exactly on non-empty
fields; the failure on a zero-size field is NumPy's ValueError raised
by the max reduction, not a dedicated EmptyFieldError. -/
theorem C9_succeeds_iff_nonempty (l : List ℚ) :
    (extract_haze_features l).isOk = true ↔ l ≠ [] := by
  cases l with
  | nil => simp [extract_haze_features, Except.isOk, Except.toBool]
  | cons a as => simp [extract_haze_features, Except.isOk, Except.toBool]

/-- MAX_DIMENSION constant of src/preprocessing.py. -/
def MAX_DIMENSION : ℕ := 640

/-- resize_image of src/preprocessing.py, tracked on image shapes:
scale = max_dim / max(h, w); if scale >= 1.0 the image is returned
unchanged (a copy), otherwise cv2.resize produces an image of shape
(int(h * scale), int(w * scale)). -/
def resize_dims (h w max_dim : ℕ) : ℕ × ℕ :=
  let scale : ℚ := (max_dim : ℚ) / (max h w : ℚ)
  if 1 ≤ scale then (h, w)
  else ((pyTrunc ((h : ℚ) * scale)).toNat, (pyTrunc ((w : ℚ) * scale)).toNat)

/-- The truncated product with the scale of the largest dimension
recovers max_dim exactly. -/
theorem pyTrunc_scale_max (m d : ℕ) (hm : 0 < m) :
    (pyTrunc ((m : ℚ) * ((d : ℚ) / (m : ℚ)))).toNat = d := by
  have hm0 : ((m : ℚ)) ≠ 0 := by exact_mod_cast Nat.pos_iff_ne_zero.mp hm
  have hcancel : (m : ℚ) * ((d : ℚ) / (m : ℚ)) = (d : ℚ) := by
    field_simp
  rw [hcancel]
  unfold pyTrunc
  rw [if_pos (by positivity), Int.floor_natCast]
  exact Int.toNat_natCast d

/-- Scaling by a factor below one never enlarges a dimension. -/
theorem pyTrunc_scale_lt (n : ℕ) (s : ℚ) (hs0 : 0 ≤ s) (hs1 : s < 1) :
    (pyTrunc ((n : ℚ) * s)).toNat ≤ n := by
  unfold pyTrunc
  rw [if_pos (by positivity)]
  have h1 : (n : ℚ) * s ≤ (n : ℚ) := by
    calc (n : ℚ) * s ≤ (n : ℚ) * 1 :=
          mul_le_mul_of_nonneg_left (le_of_lt hs1) (by positivity)
      _ = (n : ℚ) := mul_one _
  have h2 : ⌊(n : ℚ) * s⌋ ≤ (n : ℤ) := by
    calc ⌊(n : ℚ) * s⌋ ≤ ⌊(n : ℚ)⌋ := Int.floor_le_floor h1
      _ = (n : ℤ) := Int.floor_natCast n
  omega

/-- Truncation to a natural number is monotone on nonnegative
rationals. -/
theorem pyTrunc_toNat_mono {x y : ℚ} (hx : 0 ≤ x) (hxy : x ≤ y) :
    (pyTrunc x).toNat ≤ (pyTrunc y).toNat := by
  unfold pyTrunc
  rw [if_pos hx, if_pos (le_trans hx hxy)]
  have := Int.floor_le_floor hxy
  omega

/-- C6: the resize step downscales exactly when max(H, W) > 640 — the
output's larger dimension is then exactly 640 and neither dimension
grows — and returns the image unscaled otherwise; both output
dimensions are the common-scale products truncated, preserving the
aspect ratio up to that truncation. -/
theorem C6_resize_bounds (h w : ℕ) (hh : 1 ≤ h) (hw : 1 ≤ w) :
    (max h w ≤ 640 → resize_dims h w 640 = (h, w)) ∧
      (640 < max h w →
        max (resize_dims h w 640).1 (resize_dims h w 640).2 = 640 ∧
          (resize_dims h w 640).1 ≤ h ∧ (resize_dims h w 640).2 ≤ w ∧
          (resize_dims h w 640).1
              = (pyTrunc ((h : ℚ) * (((640 : ℕ) : ℚ) / max (h : ℚ) (w : ℚ)))).toNat ∧
          (resize_dims h w 640).2
              = (pyTrunc ((w : ℚ) * (((640 : ℕ) : ℚ) / max (h : ℚ) (w : ℚ)))).toNat) := by
  have hhq : (0 : ℚ) < (h : ℚ) := by exact_mod_cast hh
  have hwq : (0 : ℚ) < (w : ℚ) := by exact_mod_cast hw
  have hmq : (0 : ℚ) < max (h : ℚ) (w : ℚ) := lt_max_iff.mpr (Or.inl hhq)
  have hckey : ((1 : ℚ) ≤ ((640 : ℕ) : ℚ) / max (h : ℚ) (w : ℚ)) ↔ max h w ≤ 640 := by
    rw [le_div_iff₀ hmq, one_mul]
    exact_mod_cast Iff.rfl
  constructor
  · intro hle
    simp only [resize_dims]
    rw [if_pos (hckey.mpr hle)]
  · intro hgt
    have hcond : ¬ ((1 : ℚ) ≤ ((640 : ℕ) : ℚ) / max (h : ℚ) (w : ℚ)) := by
      rw [hckey]; omega
    have hs0 : (0 : ℚ) ≤ ((640 : ℕ) : ℚ) / max (h : ℚ) (w : ℚ) := by positivity
    have hs1 : ((640 : ℕ) : ℚ) / max (h : ℚ) (w : ℚ) < 1 := by
      rw [div_lt_one hmq]
      exact_mod_cast hgt
    have hres : resize_dims h w 640
        = ((pyTrunc ((h : ℚ) * (((640 : ℕ) : ℚ) / max (h : ℚ) (w : ℚ)))).toNat,
           (pyTrunc ((w : ℚ) * (((640 : ℕ) : ℚ) / max (h : ℚ) (w : ℚ)))).toNat) := by
      simp only [resize_dims]
      rw [if_neg hcond]
    rw [hres]
    refine ⟨?_, pyTrunc_scale_lt h _ hs0 hs1, pyTrunc_scale_lt w _ hs0 hs1, rfl, rfl⟩
    rcases le_total w h with hwh | hhw
    · have hmaxq : max (h : ℚ) (w : ℚ) = (h : ℚ) := max_eq_left (by exact_mod_cast hwh)
      rw [hmaxq]
      have h1 : (pyTrunc ((h : ℚ) * (((640 : ℕ) : ℚ) / (h : ℚ)))).toNat = 640 :=
        pyTrunc_scale_max h 640 (by omega)
      have h3 : (pyTrunc ((w : ℚ) * (((640 : ℕ) : ℚ) / (h : ℚ)))).toNat
          ≤ (pyTrunc ((h : ℚ) * (((640 : ℕ) : ℚ) / (h : ℚ)))).toNat := by
        apply pyTrunc_toNat_mono (by positivity)
        apply mul_le_mul_of_nonneg_right _ (by positivity)
        exact_mod_cast hwh
      rw [h1] at h3
      rw [h1]
      exact max_eq_left h3
    · have hmaxq : max (h : ℚ) (w : ℚ) = (w : ℚ) := max_eq_right (by exact_mod_cast hhw)
      rw [hmaxq]
      have h1 : (pyTrunc ((w : ℚ) * (((640 : ℕ) : ℚ) / (w : ℚ)))).toNat = 640 :=
        pyTrunc_scale_max w 640 (by omega)
      have h3 : (pyTrunc ((h : ℚ) * (((640 : ℕ) : ℚ) / (w : ℚ)))).toNat
          ≤ (pyTrunc ((w : ℚ) * (((640 : ℕ) : ℚ) / (w : ℚ)))).toNat := by
        apply pyTrunc_toNat_mono (by positivity)
        apply mul_le_mul_of_nonneg_right _ (by positivity)
        exact_mod_cast hhw
      rw [h1] at h3
      rw [h1]
      exact max_eq_right h3

theorem C6_resize_bounds_witness :
    resize_dims 100 100 640 = (100, 100) ∧
      max (resize_dims 2000 1000 640).1 (resize_dims 2000 1000 640).2 = 640 :=
  ⟨(C6_resize_bounds 100 100 (by decide) (by decide)).1 (by decide),
    ((C6_resize_bounds 2000 1000 (by decide) (by decide)).2 (by decide)).1⟩

/-- np.argsort of the flattened dark channel: the index list 0..n-1
sorted by dark-channel value, modelled with a stable insertion sort
(numpy's default quicksort is unstable, so only the relative order of
exact ties can differ from this model). -/
def argsortQ (dc : List ℚ) : List ℕ :=
  List.insertionSort (fun i j => dc.getD i 0 ≤ dc.getD j 0) (List.range dc.length)

/-- Step indices = np.argsort(flat_dc)[-num_top:] of
estimate_atmospheric_light: the num_top indices whose dark-channel
values are largest. -/
def candidateIndices (dc : List ℚ) (top_percent : ℚ) : List ℕ :=
  (argsortQ dc).drop (dc.length - numTop dc.length top_percent)

/-- A pixel triple scaled to [0, 1]: one row of
flat_img = (image/255).reshape(-1, 3). -/
def normPix (p : ℕ × ℕ × ℕ) : ℚ × ℚ × ℚ :=
  ((p.1 : ℚ) / 255, (p.2.1 : ℚ) / 255, (p.2.2 : ℚ) / 255)

/-- Sum of the components of a channel triple. -/
def sumTriple (q : ℚ × ℚ × ℚ) : ℚ := q.1 + q.2.1 + q.2.2

/-- One entry of intensities = np.sum(flat_img[indices], axis=1): the
channel sum of one normalised pixel. -/
def pixSum (p : ℕ × ℕ × ℕ) : ℚ := sumTriple (normPix p)

/-- np.argmax: position of the first occurrence of the maximum. -/
def argmaxQ (l : List ℚ) : ℕ := l.indexOf (maxQ l)

/-- estimate_atmospheric_light of src/haze_estimation.py, over the
flattened image (row-major list of uint8 BGR triples) and the flattened
dark channel: the num_top brightest dark-channel indices are the
candidates, and the normalised channel triple of the candidate with the
greatest channel sum is returned. -/
def estimate_atmospheric_light (flatImg : List (ℕ × ℕ × ℕ)) (dc : List ℚ)
    (top_percent : ℚ) : ℚ × ℚ × ℚ :=
  let indices : List ℕ := candidateIndices dc top_percent
  let intensities : List ℚ := indices.map fun i => pixSum (flatImg.getD i (0, 0, 0))
  let best : ℕ := indices.getD (argmaxQ intensities) 0
  normPix (flatImg.getD best (0, 0, 0))

theorem foldl_max_mem : ∀ (as : List ℚ) (init : ℚ),
    as.foldl max init = init ∨ as.foldl max init ∈ as := by
  intro as
  induction as with
  | nil => intro _; left; rfl
  | cons a as ih =>
      intro init
      have hstep : (a :: as).foldl max init = as.foldl max (max init a) := rfl
      rcases ih (max init a) with h | h
      · rcases max_choice init a with hm | hm
        · left; rw [hstep, h, hm]
        · right; rw [hstep, h, hm]; exact List.mem_cons_self a as
      · right; rw [hstep]; exact List.mem_cons_of_mem a h

/-- The maximum of a non-empty list is attained. -/
theorem maxQ_mem (l : List ℚ) (h : l ≠ []) : maxQ l ∈ l := by
  cases l with
  | nil => exact absurd rfl h
  | cons a as =>
      have hm : maxQ (a :: as) = as.foldl max a := rfl
      rcases foldl_max_mem as a with h1 | h1
      · rw [hm, h1]; exact List.mem_cons_self a as
      · rw [hm]; exact List.mem_cons_of_mem a h1

theorem getD_mem_of_lt {α : Type} (l : List α) (n : ℕ) (d : α)
    (h : n < l.length) : l.getD n d ∈ l := by
  induction l generalizing n with
  | nil => simp at h
  | cons a as ih =>
      cases n with
      | zero => exact List.mem_cons_self a as
      | succ m =>
          have : as.getD m d ∈ as := ih m (by simpa using h)
          exact List.mem_cons_of_mem a this

theorem getD_map_of_lt (f : ℕ → ℚ) (l : List ℕ) (n : ℕ)
    (h : n < l.length) : (l.map f).getD n 0 = f (l.getD n 0) := by
  induction l generalizing n with
  | nil => simp at h
  | cons a as ih =>
      cases n with
      | zero => rfl
      | succ m => exact ih m (by simpa using h)

/-- The value of a list at the index of a member is that member. -/
theorem getD_indexOf (l : List ℚ) (x : ℚ) (h : x ∈ l) :
    l.getD (l.indexOf x) 0 = x := by
  have hlt : l.indexOf x < l.length := List.indexOf_lt_length.mpr h
  rw [List.getD_eq_getElem?_getD, List.getElem?_eq_getElem hlt,
    Option.getD_some]
  exact List.indexOf_get hlt

/-- A non-empty pairwise-sorted list contains a greatest element. -/
theorem pairwise_exists_max {r : ℕ → ℕ → Prop} (hrefl : ∀ a, r a a) :
    ∀ l : List ℕ, l.Pairwise r → l ≠ [] → ∃ a ∈ l, ∀ b ∈ l, r b a := by
  intro l
  induction l with
  | nil => intro _ h; exact absurd rfl h
  | cons x xs ih =>
      intro hp _
      rcases List.pairwise_cons.mp hp with ⟨hx, hxs⟩
      by_cases he : xs = []
      · subst he
        refine ⟨x, List.mem_cons_self x [], ?_⟩
        intro b hb
        rcases List.mem_cons.mp hb with rfl | hb
        · exact hrefl b
        · cases hb
      · obtain ⟨a, ha, hmax⟩ := ih hxs he
        refine ⟨a, List.mem_cons_of_mem x ha, ?_⟩
        intro b hb
        rcases List.mem_cons.mp hb with rfl | hb
        · exact hx a ha
        · exact hmax b hb

/-- The argsort model is a permutation of the index range. -/
theorem argsortQ_perm (dc : List ℚ) :
    List.Perm (argsortQ dc) (List.range dc.length) :=
  List.perm_insertionSort _ _

/-- The argsort model is sorted by dark-channel value. -/
theorem argsortQ_sorted (dc : List ℚ) :
    (argsortQ dc).Sorted fun i j => dc.getD i 0 ≤ dc.getD j 0 := by
  haveI : IsTotal ℕ fun i j => dc.getD i 0 ≤ dc.getD j 0 :=
    ⟨fun a b => le_total _ _⟩
  haveI : IsTrans ℕ fun i j => dc.getD i 0 ≤ dc.getD j 0 :=
    ⟨fun a b c hab hbc => le_trans hab hbc⟩
  exact List.sorted_insertionSort _ _

theorem argsortQ_length (dc : List ℚ) :
    (argsortQ dc).length = dc.length :=
  (argsortQ_perm dc).length_eq.trans (List.length_range _)

/-- The candidate set is never empty once the grid has a pixel. -/
theorem candidateIndices_ne_nil (dc : List ℚ) (top_percent : ℚ)
    (hne : dc ≠ []) : candidateIndices dc top_percent ≠ [] := by
  have hn : 0 < dc.length := List.length_pos.mpr hne
  have hk : 1 ≤ numTop dc.length top_percent := le_max_right _ 1
  have hlen : (candidateIndices dc top_percent).length
      = (argsortQ dc).length - (dc.length - numTop dc.length top_percent) :=
    List.length_drop _ _
  rw [argsortQ_length] at hlen
  have : 0 < (candidateIndices dc top_percent).length := by omega
  exact List.ne_nil_of_length_pos this

/-- Every candidate index really indexes the grid. -/
theorem candidateIndices_lt (dc : List ℚ) (top_percent : ℚ) :
    ∀ i ∈ candidateIndices dc top_percent, i < dc.length := by
  intro i hi
  have hs : i ∈ argsortQ dc := List.drop_subset _ _ hi
  exact List.mem_range.mp ((argsortQ_perm dc).mem_iff.mp hs)

/-- The candidate set contains an index of maximal dark-channel
value. -/
theorem candidateIndices_has_max (dc : List ℚ) (top_percent : ℚ)
    (hne : dc ≠ []) :
    ∃ a ∈ candidateIndices dc top_percent,
      ∀ j, j < dc.length → dc.getD j 0 ≤ dc.getD a 0 := by
  have hsort := argsortQ_sorted dc
  have hsplit := List.take_append_drop
    (dc.length - numTop dc.length top_percent) (argsortQ dc)
  have hpw : ((argsortQ dc).take (dc.length - numTop dc.length top_percent) ++
      (argsortQ dc).drop (dc.length - numTop dc.length top_percent)).Pairwise
        fun i j => dc.getD i 0 ≤ dc.getD j 0 := by
    rw [hsplit]; exact hsort
  obtain ⟨-, p2, hcross⟩ := List.pairwise_append.mp hpw
  obtain ⟨a, ha, hamax⟩ :=
    pairwise_exists_max (fun x => le_refl (dc.getD x 0)) _ p2
      (candidateIndices_ne_nil dc top_percent hne)
  refine ⟨a, ha, ?_⟩
  intro j hj
  have hjs : j ∈ argsortQ dc :=
    (argsortQ_perm dc).mem_iff.mpr (List.mem_range.mpr hj)
  rw [← hsplit] at hjs
  rcases List.mem_append.mp hjs with hjt | hjd
  · exact hcross j hjt a ha
  · exact hamax j hjd

/-- C3: on a non-empty grid, estimate_atmospheric_light returns exactly
the normalised channel triple of one pixel of the original grid — the
candidate with the greatest channel sum — and the candidate set is
never empty and always contains a dark-channel maximum, whatever the
configured fraction selects. -/
theorem C3_atmospheric_light_selection (flatImg : List (ℕ × ℕ × ℕ))
    (dc : List ℚ) (top_percent : ℚ) (hlen : dc.length = flatImg.length)
    (hne : dc ≠ []) :
    (∃ k ∈ candidateIndices dc top_percent, k < flatImg.length ∧
        estimate_atmospheric_light flatImg dc top_percent
          = normPix (flatImg.getD k (0, 0, 0))) ∧
      (∀ i ∈ candidateIndices dc top_percent,
        pixSum (flatImg.getD i (0, 0, 0))
          ≤ sumTriple (estimate_atmospheric_light flatImg dc top_percent)) ∧
      candidateIndices dc top_percent ≠ [] ∧
      (∃ a ∈ candidateIndices dc top_percent,
        ∀ j, j < dc.length → dc.getD j 0 ≤ dc.getD a 0) := by
  have hinds : candidateIndices dc top_percent ≠ [] :=
    candidateIndices_ne_nil dc top_percent hne
  have hintsne :
      (candidateIndices dc top_percent).map
        (fun i => pixSum (flatImg.getD i (0, 0, 0))) ≠ [] := by
    intro hmapnil
    exact hinds (List.map_eq_nil_iff.mp hmapnil)
  have hmem := maxQ_mem _ hintsne
  have hpos :
      argmaxQ ((candidateIndices dc top_percent).map
        (fun i => pixSum (flatImg.getD i (0, 0, 0)))) <
        ((candidateIndices dc top_percent).map
          (fun i => pixSum (flatImg.getD i (0, 0, 0)))).length :=
    List.indexOf_lt_length.mpr hmem
  have hmaplen :
      ((candidateIndices dc top_percent).map
        (fun i => pixSum (flatImg.getD i (0, 0, 0)))).length
        = (candidateIndices dc top_percent).length := List.length_map _ _
  have hbestmem :
      (candidateIndices dc top_percent).getD
        (argmaxQ ((candidateIndices dc top_percent).map
          (fun i => pixSum (flatImg.getD i (0, 0, 0))))) 0
        ∈ candidateIndices dc top_percent :=
    getD_mem_of_lt _ _ _ (by rw [← hmaplen]; exact hpos)
  have hA : estimate_atmospheric_light flatImg dc top_percent
      = normPix (flatImg.getD
          ((candidateIndices dc top_percent).getD
            (argmaxQ ((candidateIndices dc top_percent).map
              (fun i => pixSum (flatImg.getD i (0, 0, 0))))) 0) (0, 0, 0)) := rfl
  have hAsum : sumTriple (estimate_atmospheric_light flatImg dc top_percent)
      = maxQ ((candidateIndices dc top_percent).map
          (fun i => pixSum (flatImg.getD i (0, 0, 0)))) := by
    rw [hA]
    have hv := getD_indexOf _ _ hmem
    have hm := getD_map_of_lt (fun i => pixSum (flatImg.getD i (0, 0, 0)))
      (candidateIndices dc top_percent) _ (by rw [← hmaplen]; exact hpos)
    exact hm.symm.trans hv
  refine ⟨?_, ?_, hinds, candidateIndices_has_max dc top_percent hne⟩
  · refine ⟨(candidateIndices dc top_percent).getD
        (argmaxQ ((candidateIndices dc top_percent).map
          (fun i => pixSum (flatImg.getD i (0, 0, 0))))) 0, hbestmem, ?_, hA⟩
    rw [← hlen]
    exact candidateIndices_lt dc top_percent _ hbestmem
  · intro i hi
    rw [hAsum]
    exact le_maxQ _ _ (List.mem_map_of_mem _ hi)

theorem C3_atmospheric_light_selection_witness :
    ([0, 1] : List ℚ).length
        = ([((0 : ℕ), (0 : ℕ), (0 : ℕ)), (255, 255, 255)] : List (ℕ × ℕ × ℕ)).length ∧
      ([0, 1] : List ℚ) ≠ [] ∧
      ((∃ k ∈ candidateIndices [0, 1] TOP_PERCENT,
          k < ([((0 : ℕ), (0 : ℕ), (0 : ℕ)), (255, 255, 255)] : List (ℕ × ℕ × ℕ)).length ∧
          estimate_atmospheric_light [((0 : ℕ), (0 : ℕ), (0 : ℕ)), (255, 255, 255)] [0, 1] TOP_PERCENT
            = normPix (([((0 : ℕ), (0 : ℕ), (0 : ℕ)), (255, 255, 255)] : List (ℕ × ℕ × ℕ)).getD k (0, 0, 0))) ∧
        (∀ i ∈ candidateIndices [0, 1] TOP_PERCENT,
          pixSum (([((0 : ℕ), (0 : ℕ), (0 : ℕ)), (255, 255, 255)] : List (ℕ × ℕ × ℕ)).getD i (0, 0, 0))
            ≤ sumTriple (estimate_atmospheric_light [((0 : ℕ), (0 : ℕ), (0 : ℕ)), (255, 255, 255)] [0, 1] TOP_PERCENT)) ∧
        candidateIndices [0, 1] TOP_PERCENT ≠ [] ∧
        (∃ a ∈ candidateIndices [0, 1] TOP_PERCENT,
          ∀ j, j < ([0, 1] : List ℚ).length → ([0, 1] : List ℚ).getD j 0 ≤ ([0, 1] : List ℚ).getD a 0)) :=
  ⟨rfl, by simp,
    C3_atmospheric_light_selection [((0 : ℕ), (0 : ℕ), (0 : ℕ)), (255, 255, 255)]
      [0, 1] TOP_PERCENT rfl (by simp)⟩

end AirCamera
